import Mathlib

/-!
Shallow embedding of `src/calculator.py` (class `RPNCalculator`): the
tokenizer, token validation, parenthesis check, shunting-yard converter and
postfix evaluator, together with proofs about them.

Numeric values are modelled as `ℚ`; Python `float` arithmetic is exact on
all concrete inputs considered here, and the structural properties below
(precedence, pop order, error propagation) do not depend on rounding.
Python exceptions are modelled by `Except RPNError`.
-/

/-- The error taxonomy of `calculator.py`: `InvalidTokenError`,
`MismatchedParenthesesError` and `RPNSyntaxError` (constructor `synErr`,
carrying the reason string). -/
inductive RPNError
  | invalidToken (t : String)
  | mismatchedParens
  | synErr (msg : String)
  deriving DecidableEq, Repr

/-- `token.replace(".", "", 1)`: drop the first `'.'` of a char list. -/
def removeFirstDot : List Char → List Char
  | [] => []
  | c :: r => if c = '.' then r else c :: removeFirstDot r

/-- `token.replace(".", "", 1).isdigit()` (ASCII digits; all tokens in this
development are ASCII). -/
def isNumToken (t : String) : Bool :=
  !(removeFirstDot t.data).isEmpty && (removeFirstDot t.data).all Char.isDigit

/-- Membership in `RPNCalculator.OPERATORS`. -/
def isOp (t : String) : Bool :=
  t == "+" || t == "-" || t == "*" || t == "/"

/-- `RPNCalculator.PRIORITY` (a dict defined on the four operators; it is
only ever looked up on operators in the source). -/
def PRIORITY (t : String) : Nat :=
  if t == "+" || t == "-" then 1
  else if t == "*" || t == "/" then 2
  else 0

/-- Scanner state while matching the numeral alternative `\d+\.?\d*` of the
tokenizing regex. -/
inductive ScanState
  | start
  | intPart (acc : List Char)
  | fracPart (acc : List Char)

/-- Emit the numeral accumulated so far, if any. -/
def flushSt : ScanState → List String
  | .start => []
  | .intPart acc => [String.mk acc]
  | .fracPart acc => [String.mk acc]

/-- The character class `[()+\-*/]` of the tokenizing regex. -/
def isSym (c : Char) : Bool :=
  c == '(' || c == ')' || c == '+' || c == '-' || c == '*' || c == '/'

/-- Left-to-right maximal-munch scan equivalent to
`re.findall(r"\d+\.?\d*|[()+\-*/]", expression)` in `_tokenize`: a numeral
is one or more digits, then an optional dot and more digits; single
operator/parenthesis characters are tokens; every other character
(whitespace, letters, stray dots) is silently dropped. -/
def tokenizeCore : List Char → ScanState → List String
  | [], st => flushSt st
  | c :: rest, st =>
    if c.isDigit then
      match st with
      | .start => tokenizeCore rest (.intPart [c])
      | .intPart acc => tokenizeCore rest (.intPart (acc ++ [c]))
      | .fracPart acc => tokenizeCore rest (.fracPart (acc ++ [c]))
    else if c = '.' then
      match st with
      | .intPart acc => tokenizeCore rest (.fracPart (acc ++ ['.']))
      | st' => flushSt st' ++ tokenizeCore rest .start
    else if isSym c then
      flushSt st ++ String.mk [c] :: tokenizeCore rest .start
    else
      flushSt st ++ tokenizeCore rest .start

/-- `RPNCalculator._tokenize`. -/
def tokenize (s : String) : List String := tokenizeCore s.data .start

/-- The membership test of `RPNCalculator._validate_tokens`. -/
def validToken (t : String) : Bool :=
  isNumToken t || isOp t || t == "(" || t == ")"

/-- `RPNCalculator._validate_tokens`. -/
def validate_tokens : List String → Except RPNError Unit
  | [] => .ok ()
  | t :: rest =>
    if validToken t then validate_tokens rest else .error (.invalidToken t)

/-- `RPNCalculator._check_parentheses`; the source's list stack holds only
`"("`, so it is modelled by its length. -/
def check_parentheses : List String → Nat → Except RPNError Unit
  | [], n => if n = 0 then .ok () else .error .mismatchedParens
  | t :: rest, n =>
    if t == "(" then check_parentheses rest (n + 1)
    else if t == ")" then
      match n with
      | 0 => .error .mismatchedParens
      | m + 1 => check_parentheses rest m
    else check_parentheses rest n

/-- The inner `while` loop of the operator case of `infix_to_rpn`: pop while
the stack is non-empty, its top is not `"("` and the top's priority is at
least `p`; returns the popped operators (top first) and the rest. -/
def popWhile (ops : List String) (p : Nat) : List String × List String :=
  match ops with
  | [] => ([], [])
  | o :: rest =>
    if o ≠ "(" ∧ p ≤ PRIORITY o then
      (o :: (popWhile rest p).1, (popWhile rest p).2)
    else ([], o :: rest)

/-- The inner `while` loop of the `")"` case of `infix_to_rpn`: pop until a
`"("` is on top (or the stack empties). -/
def popUntilParen (ops : List String) : List String × List String :=
  match ops with
  | [] => ([], [])
  | o :: rest =>
    if o = "(" then ([], o :: rest)
    else (o :: (popUntilParen rest).1, (popUntilParen rest).2)

/-- The final `while operators:` loop of `infix_to_rpn`. -/
def finishOps (out ops : List String) : Except RPNError (List String) :=
  match ops with
  | [] => .ok out
  | o :: rest =>
    if o == "(" || o == ")" then .error .mismatchedParens
    else finishOps (out ++ [o]) rest

/-- The token loop of `RPNCalculator.infix_to_rpn` (after validation and the
parenthesis check). -/
def convertLoop : List String → List String → List String → Except RPNError (List String)
  | [], out, ops => finishOps out ops
  | t :: rest, out, ops =>
    if isNumToken t then convertLoop rest (out ++ [t]) ops
    else if isOp t then
      convertLoop rest (out ++ (popWhile ops (PRIORITY t)).1)
        (t :: (popWhile ops (PRIORITY t)).2)
    else if t = "(" then convertLoop rest out (t :: ops)
    else if t = ")" then
      match popUntilParen ops with
      | (_, []) => .error .mismatchedParens
      | (popped, _ :: remOps) => convertLoop rest (out ++ popped) remOps
    else convertLoop rest out ops

/-- `RPNCalculator.infix_to_rpn`. -/
def infix_to_rpn (s : String) : Except RPNError (List String) :=
  match validate_tokens (tokenize s) with
  | .error e => .error e
  | .ok _ =>
    match check_parentheses (tokenize s) 0 with
    | .error e => .error e
    | .ok _ => convertLoop (tokenize s) [] []

/-- Value of a digit string (the integer or fractional part of a numeral). -/
def digitsVal (l : List Char) : Nat :=
  l.foldl (fun n c => 10 * n + (c.toNat - 48)) 0

/-- `float(token)` for tokens accepted by the numeral test, as an exact
rational: integer part plus fractional part scaled by a power of ten. -/
def parseNum (t : String) : ℚ :=
  (digitsVal (t.data.takeWhile (fun c => c ≠ '.')) : ℚ) +
    (digitsVal ((t.data.dropWhile (fun c => c ≠ '.')).drop 1) : ℚ) /
      (10 : ℚ) ^ ((t.data.dropWhile (fun c => c ≠ '.')).drop 1).length

/-- `RPNCalculator.OPERATORS[token](a, b)`. -/
def applyOp (t : String) (a b : ℚ) : ℚ :=
  if t = "+" then a + b
  else if t = "-" then a - b
  else if t = "*" then a * b
  else a / b

/-- The token loop of `RPNCalculator.evaluate_rpn` plus its final stack
check (list head = stack top; `ZeroDivisionError` is raised by Python
exactly for `/` with divisor zero, which the source turns into
`RPNSyntaxError("Division by zero")`). -/
def evalLoop : List String → List ℚ → Except RPNError ℚ
  | [], stack =>
    match stack with
    | [v] => .ok v
    | _ => .error (.synErr "Malformed expression")
  | t :: rest, stack =>
    if isNumToken t then evalLoop rest (parseNum t :: stack)
    else if isOp t then
      match stack with
      | b :: a :: st =>
        if t = "/" ∧ b = 0 then .error (.synErr "Division by zero")
        else evalLoop rest (applyOp t a b :: st)
      | _ => .error (.synErr "Not enough operands for operator")
    else .error (.invalidToken t)

/-- `RPNCalculator.evaluate_rpn`. -/
def evaluate_rpn (ts : List String) : Except RPNError ℚ := evalLoop ts []

/-- `RPNCalculator.evaluate`. -/
def evaluate (s : String) : Except RPNError ℚ :=
  match infix_to_rpn s with
  | .error e => .error e
  | .ok ts => evaluate_rpn ts

deriving instance DecidableEq for Except

/-! ## Reference material for the claims

A grammar of well-formed infix expressions (for the functional-correctness
claim about `evaluate`), and a parenthesis-balance predicate written from
the spec's words (for the mismatched-parentheses claim). -/

/-- Binary operators of the reference grammar. -/
inductive BOp
  | add
  | sub
  | mul
  | div
  deriving DecidableEq, Repr

/-- Token text of an operator. -/
def BOp.tok : BOp → String
  | .add => "+"
  | .sub => "-"
  | .mul => "*"
  | .div => "/"

/-- Standard precedence: `+`,`-` at 1 and `*`,`/` at 2. -/
def BOp.prio : BOp → Nat
  | .add => 1
  | .sub => 1
  | .mul => 2
  | .div => 2

/-- Arithmetic meaning of an operator. -/
def BOp.app : BOp → ℚ → ℚ → ℚ
  | .add => fun a b => a + b
  | .sub => fun a b => a - b
  | .mul => fun a b => a * b
  | .div => fun a b => a / b

/-- Reference abstract syntax of infix expressions: numerals (integer
digits, optional dot, fraction digits), binary operations and explicit
parenthesized grouping. -/
inductive Expr
  | num (ds : List Char) (dotted : Bool) (fs : List Char)
  | bin (o : BOp) (a : Expr) (b : Expr)
  | paren (e : Expr)

/-- Token text of a numeral. -/
def numToken (ds : List Char) (dotted : Bool) (fs : List Char) : String :=
  String.mk (ds ++ if dotted then '.' :: fs else [])

/-- Well-formedness at precedence level `p` (1 = sums, 2 = products, 3 =
atoms): numerals are nonempty digit strings; in a binary node the operator
must bind at least as tightly as the level, the left subtree stays at the
operator's own level (left associativity) and the right subtree must bind
strictly tighter; parentheses reset the level.  `Expr.wf e 1` characterizes
the readings of balanced, operand-sufficient infix token strings under
standard left-associative precedence. -/
def Expr.wf : Expr → Nat → Bool
  | .num ds _ fs, _ => !ds.isEmpty && ds.all Char.isDigit && fs.all Char.isDigit
  | .bin o a b, p => decide (p ≤ o.prio) && a.wf o.prio && b.wf (o.prio + 1)
  | .paren e, _ => e.wf 1

/-- Infix token sequence of an expression. -/
def Expr.toks : Expr → List String
  | .num ds dotted fs => [numToken ds dotted fs]
  | .bin o a b => a.toks ++ o.tok :: b.toks
  | .paren e => "(" :: (e.toks ++ [")"])

/-- Postfix (RPN) token sequence of an expression. -/
def Expr.rpn : Expr → List String
  | .num ds dotted fs => [numToken ds dotted fs]
  | .bin o a b => a.rpn ++ (b.rpn ++ [o.tok])
  | .paren e => e.rpn

/-- Reference value of an expression (`none` on division by zero). -/
def Expr.val : Expr → Option ℚ
  | .num ds dotted fs => some (parseNum (numToken ds dotted fs))
  | .bin o a b =>
    match a.val, b.val with
    | some x, some y => if o = .div ∧ y = 0 then none else some (o.app x y)
    | _, _ => none
  | .paren e => e.val

/-- Render a token list as an input string, one space after each token. -/
def spaceJoin : List String → List Char
  | [] => []
  | t :: ts => t.data ++ ' ' :: spaceJoin ts

/-- Render an expression as an input string. -/
def render (e : Expr) : String := String.mk (spaceJoin e.toks)

/-- Number of `"("` tokens. -/
def opens (ts : List String) : Nat := ts.countP (fun t => t == "(")

/-- Number of `")"` tokens. -/
def closes (ts : List String) : Nat := ts.countP (fun t => t == ")")

/-- Modelled from the spec (section 4.3): a token sequence has an unmatched
parenthesis if some `")"` occurs at a point where every earlier `"("` is
already matched (the open-parenthesis counter is at zero), or the total
counts differ (an unmatched `"("` remains at the end of the scan). -/
def Unbalanced (ts : List String) : Prop :=
  (∃ pre suf, ts = pre ++ ")" :: suf ∧ opens pre ≤ closes pre) ∨
    opens ts ≠ closes ts

/-- Operator-stack condition for the conversion proof: the top of the
stack, if any, is `"("` or an operator binding strictly looser than `p`. -/
def topOK : List String → Nat → Prop
  | [], _ => True
  | o :: _, p => o = "(" ∨ (isOp o = true ∧ PRIORITY o < p)

/-- The loop condition of the operator case of `infix_to_rpn`: the stack
top is not `"("` and its priority is at least `p`. -/
def popCond (p : Nat) (o : String) : Bool :=
  decide (o ≠ "(") && decide (p ≤ PRIORITY o)

/-- Invariant on the scanner state: the accumulated numeral is a nonempty
digit string with at most one dot, led by a digit. -/
def stInv : ScanState → Prop
  | .start => True
  | .intPart acc => acc ≠ [] ∧ acc.all Char.isDigit = true
  | .fracPart acc => ∃ ds fs, acc = ds ++ '.' :: fs ∧ ds ≠ [] ∧
      ds.all Char.isDigit = true ∧ fs.all Char.isDigit = true

/-! ## Basic token facts -/

theorem isOp_cases {t : String} (h : isOp t = true) :
    t = "+" ∨ t = "-" ∨ t = "*" ∨ t = "/" := by
  simpa [isOp, or_assoc] using h

theorem isOp_not_num {t : String} (h : isOp t = true) : isNumToken t = false := by
  rcases isOp_cases h with rfl | rfl | rfl | rfl <;> decide

theorem isOp_ne_lparen {t : String} (h : isOp t = true) : t ≠ "(" := by
  rcases isOp_cases h with rfl | rfl | rfl | rfl <;> decide

theorem isOp_ne_rparen {t : String} (h : isOp t = true) : t ≠ ")" := by
  rcases isOp_cases h with rfl | rfl | rfl | rfl <;> decide

/-! ## `parseNum` on dot-free numerals -/

theorem takeWhile_ne_of_not_mem {c : Char} {l : List Char} (h : c ∉ l) :
    l.takeWhile (fun d => d ≠ c) = l := by
  induction l with
  | nil => rfl
  | cons d r ih =>
    simp only [List.mem_cons, not_or] at h
    rw [List.takeWhile_cons_of_pos (by simpa using Ne.symm h.1), ih h.2]

theorem dropWhile_ne_of_not_mem {c : Char} {l : List Char} (h : c ∉ l) :
    l.dropWhile (fun d => d ≠ c) = [] := by
  induction l with
  | nil => rfl
  | cons d r ih =>
    simp only [List.mem_cons, not_or] at h
    rw [List.dropWhile_cons_of_pos (by simpa using Ne.symm h.1)]
    exact ih h.2

theorem parseNum_of_nodot {t : String} (h : '.' ∉ t.data) :
    parseNum t = digitsVal t.data := by
  unfold parseNum
  rw [takeWhile_ne_of_not_mem h, dropWhile_ne_of_not_mem h]
  simp [digitsVal]

theorem parseNum_val (t : String) (n : ℕ) (h : '.' ∉ t.data)
    (hv : digitsVal t.data = n) : parseNum t = (n : ℚ) := by
  rw [parseNum_of_nodot h, hv]

theorem parseNum_0 : parseNum "0" = 0 := by
  simpa using parseNum_val "0" 0 (by decide) (by decide)

theorem parseNum_1 : parseNum "1" = 1 := by
  simpa using parseNum_val "1" 1 (by decide) (by decide)

theorem parseNum_2 : parseNum "2" = 2 := by
  simpa using parseNum_val "2" 2 (by decide) (by decide)

theorem parseNum_3 : parseNum "3" = 3 := by
  simpa using parseNum_val "3" 3 (by decide) (by decide)

theorem parseNum_4 : parseNum "4" = 4 := by
  simpa using parseNum_val "4" 4 (by decide) (by decide)

theorem parseNum_5 : parseNum "5" = 5 := by
  simpa using parseNum_val "5" 5 (by decide) (by decide)

/-! ## `applyOp` unfolding -/

theorem applyOp_add (a b : ℚ) : applyOp "+" a b = a + b := rfl

theorem applyOp_sub (a b : ℚ) : applyOp "-" a b = a - b := rfl

theorem applyOp_mul (a b : ℚ) : applyOp "*" a b = a * b := rfl

theorem applyOp_div (a b : ℚ) : applyOp "/" a b = a / b := rfl

/-! ## Stepping lemmas for the postfix evaluator -/

theorem evalLoop_num {t : String} (h : isNumToken t = true)
    (rest : List String) (st : List ℚ) :
    evalLoop (t :: rest) st = evalLoop rest (parseNum t :: st) := by
  simp [evalLoop, h]

theorem evalLoop_op {t : String} (h : isOp t = true) (rest : List String)
    (a b : ℚ) (st : List ℚ) (hnz : ¬(t = "/" ∧ b = 0)) :
    evalLoop (t :: rest) (b :: a :: st) = evalLoop rest (applyOp t a b :: st) := by
  simp [evalLoop, isOp_not_num h, h, hnz]

theorem evalLoop_div_zero (rest : List String) (a : ℚ) (st : List ℚ) :
    evalLoop ("/" :: rest) (0 :: a :: st) = .error (.synErr "Division by zero") := by
  have h1 : isNumToken "/" = false := by decide
  have h2 : isOp "/" = true := by decide
  simp [evalLoop, h1, h2]

theorem evalLoop_insufficient {t : String} (h : isOp t = true)
    (rest : List String) {st : List ℚ} (hst : st.length < 2) :
    evalLoop (t :: rest) st = .error (.synErr "Not enough operands for operator") := by
  match st with
  | [] => simp [evalLoop, isOp_not_num h, h]
  | [x] => simp [evalLoop, isOp_not_num h, h]
  | x :: y :: r => simp [List.length_cons] at hst; omega

theorem evalLoop_final (st : List ℚ) :
    evalLoop [] st = match st with
      | [v] => Except.ok v
      | _ => Except.error (.synErr "Malformed expression") := by
  match st with
  | [] => rfl
  | [v] => rfl
  | a :: b :: r => rfl

theorem evaluate_of_rpn {s : String} {ts : List String}
    (h : infix_to_rpn s = .ok ts) : evaluate s = evaluate_rpn ts := by
  simp [evaluate, h]

theorem evaluate_of_rpn_error {s : String} {e : RPNError}
    (h : infix_to_rpn s = .error e) : evaluate s = .error e := by
  simp [evaluate, h]

/-! ## Concrete pipeline evaluations used by the claims -/

theorem eval_3p4t2 : evaluate "3 + 4 * 2" = .ok 11 := by
  rw [evaluate_of_rpn (show infix_to_rpn "3 + 4 * 2" =
        .ok ["3", "4", "2", "*", "+"] from by decide),
    evaluate_rpn, evalLoop_num (by decide), parseNum_3,
    evalLoop_num (by decide), parseNum_4, evalLoop_num (by decide), parseNum_2,
    evalLoop_op (by decide) _ _ _ _ (fun h => absurd h.1 (by decide)), applyOp_mul,
    evalLoop_op (by decide) _ _ _ _ (fun h => absurd h.1 (by decide)), applyOp_add,
    evalLoop_final]
  norm_num

theorem eval_big : evaluate "3 + 4 * 2 / (1 - 5)" = .ok 1 := by
  rw [evaluate_of_rpn (show infix_to_rpn "3 + 4 * 2 / (1 - 5)" =
        .ok ["3", "4", "2", "*", "1", "5", "-", "/", "+"] from by decide),
    evaluate_rpn, evalLoop_num (by decide), parseNum_3,
    evalLoop_num (by decide), parseNum_4, evalLoop_num (by decide), parseNum_2,
    evalLoop_op (by decide) _ _ _ _ (fun h => absurd h.1 (by decide)), applyOp_mul,
    evalLoop_num (by decide), parseNum_1, evalLoop_num (by decide), parseNum_5,
    evalLoop_op (by decide) _ _ _ _ (fun h => absurd h.1 (by decide)), applyOp_sub,
    evalLoop_op (by decide) _ _ _ _ (by norm_num), applyOp_div,
    evalLoop_op (by decide) _ _ _ _ (fun h => absurd h.1 (by decide)), applyOp_add,
    evalLoop_final]
  norm_num

theorem eval_div0 : evaluate "3 / 0" = .error (.synErr "Division by zero") := by
  rw [evaluate_of_rpn (show infix_to_rpn "3 / 0" =
        .ok ["3", "0", "/"] from by decide),
    evaluate_rpn, evalLoop_num (by decide), parseNum_3,
    evalLoop_num (by decide), parseNum_0, evalLoop_div_zero]

theorem eval_dropped_letter : evaluate "3 + 4a" = .ok 7 := by
  rw [evaluate_of_rpn (show infix_to_rpn "3 + 4a" =
        .ok ["3", "4", "+"] from by decide),
    evaluate_rpn, evalLoop_num (by decide), parseNum_3,
    evalLoop_num (by decide), parseNum_4,
    evalLoop_op (by decide) _ _ _ _ (fun h => absurd h.1 (by decide)), applyOp_add,
    evalLoop_final]
  norm_num

theorem eval_plus3 : evaluate "+ 3" =
    .error (.synErr "Not enough operands for operator") := by
  rw [evaluate_of_rpn (show infix_to_rpn "+ 3" = .ok ["3", "+"] from by decide),
    evaluate_rpn, evalLoop_num (by decide),
    evalLoop_insufficient (by decide) _ (by simp)]

theorem eval_unmatched_open : evaluate "(3 + 4" = .error .mismatchedParens :=
  evaluate_of_rpn_error (by decide)

theorem eval_unmatched_close : evaluate "3 + 4)" = .error .mismatchedParens :=
  evaluate_of_rpn_error (by decide)

theorem evalrpn_33 : evaluate_rpn ["3", "3"] =
    .error (.synErr "Malformed expression") := by
  rw [evaluate_rpn, evalLoop_num (by decide), evalLoop_num (by decide),
    evalLoop_final]

theorem evalrpn_34minus : evaluate_rpn ["3", "4", "-"] = .ok (-1) := by
  rw [evaluate_rpn, evalLoop_num (by decide), parseNum_3,
    evalLoop_num (by decide), parseNum_4,
    evalLoop_op (by decide) _ _ _ _ (fun h => absurd h.1 (by decide)), applyOp_sub,
    evalLoop_final]
  norm_num

/-! ## Every token the tokenizer emits passes validation -/

theorem not_dot_of_all_digit {l : List Char} (h : l.all Char.isDigit = true) :
    '.' ∉ l := by
  intro hm
  have h2 := List.all_eq_true.mp h '.' hm
  exact absurd h2 (by decide)

theorem removeFirstDot_no_dot {l : List Char} (h : '.' ∉ l) :
    removeFirstDot l = l := by
  induction l with
  | nil => rfl
  | cons c r ih =>
    simp only [List.mem_cons, not_or] at h
    rw [removeFirstDot, if_neg (Ne.symm h.1), ih h.2]

theorem removeFirstDot_append {ds fs : List Char} (h : '.' ∉ ds) :
    removeFirstDot (ds ++ '.' :: fs) = ds ++ fs := by
  induction ds with
  | nil => simp [removeFirstDot]
  | cons c r ih =>
    simp only [List.mem_cons, not_or] at h
    rw [List.cons_append, removeFirstDot, if_neg (Ne.symm h.1), ih h.2,
      List.cons_append]

theorem isNumToken_digits {acc : List Char} (hne : acc ≠ [])
    (hd : acc.all Char.isDigit = true) : isNumToken (String.mk acc) = true := by
  unfold isNumToken
  rw [show (String.mk acc).data = acc from rfl,
    removeFirstDot_no_dot (not_dot_of_all_digit hd)]
  simp [List.isEmpty_iff, hne, hd]

theorem isNumToken_frac {ds fs : List Char} (hne : ds ≠ [])
    (hd : ds.all Char.isDigit = true) (hf : fs.all Char.isDigit = true) :
    isNumToken (String.mk (ds ++ '.' :: fs)) = true := by
  unfold isNumToken
  rw [show (String.mk (ds ++ '.' :: fs)).data = ds ++ '.' :: fs from rfl,
    removeFirstDot_append (not_dot_of_all_digit hd)]
  simp [List.isEmpty_iff, hne, hd, hf]

theorem flush_valid {st : ScanState} (h : stInv st) :
    ∀ t ∈ flushSt st, validToken t = true := by
  match st with
  | .start => intro t ht; simp [flushSt] at ht
  | .intPart acc =>
    intro t ht
    simp only [flushSt, List.mem_singleton] at ht
    subst ht
    simp [validToken, isNumToken_digits h.1 h.2]
  | .fracPart acc =>
    intro t ht
    simp only [flushSt, List.mem_singleton] at ht
    subst ht
    obtain ⟨ds, fs, rfl, hne, hd, hf⟩ := h
    simp [validToken, isNumToken_frac hne hd hf]

theorem isSym_cases {c : Char} (h : isSym c = true) :
    c = '(' ∨ c = ')' ∨ c = '+' ∨ c = '-' ∨ c = '*' ∨ c = '/' := by
  simpa [isSym, or_assoc] using h

theorem validToken_sym {c : Char} (h : isSym c = true) :
    validToken (String.mk [c]) = true := by
  rcases isSym_cases h with rfl | rfl | rfl | rfl | rfl | rfl <;> decide

theorem tcNil (st : ScanState) : tokenizeCore [] st = flushSt st := rfl

theorem tcD_start {c : Char} (h : c.isDigit = true) (r : List Char) :
    tokenizeCore (c :: r) .start = tokenizeCore r (.intPart [c]) := by
  rw [tokenizeCore.eq_def]
  simp [h]

theorem tcD_int {c : Char} (h : c.isDigit = true) (r acc : List Char) :
    tokenizeCore (c :: r) (.intPart acc) =
      tokenizeCore r (.intPart (acc ++ [c])) := by
  rw [tokenizeCore.eq_def]
  simp [h]

theorem tcD_frac {c : Char} (h : c.isDigit = true) (r acc : List Char) :
    tokenizeCore (c :: r) (.fracPart acc) =
      tokenizeCore r (.fracPart (acc ++ [c])) := by
  rw [tokenizeCore.eq_def]
  simp [h]

theorem tcDot_start (r : List Char) :
    tokenizeCore ('.' :: r) .start = tokenizeCore r .start := by
  rw [tokenizeCore.eq_def]
  simp [flushSt]

theorem tcDot_int (r acc : List Char) :
    tokenizeCore ('.' :: r) (.intPart acc) =
      tokenizeCore r (.fracPart (acc ++ ['.'])) := by
  rw [tokenizeCore.eq_def]
  simp

theorem tcDot_frac (r acc : List Char) :
    tokenizeCore ('.' :: r) (.fracPart acc) =
      String.mk acc :: tokenizeCore r .start := by
  rw [tokenizeCore.eq_def]
  simp [flushSt]

theorem tcSym {c : Char} (hd : ¬c.isDigit = true) (hdot : c ≠ '.')
    (hs : isSym c = true) (r : List Char) (st : ScanState) :
    tokenizeCore (c :: r) st =
      flushSt st ++ String.mk [c] :: tokenizeCore r .start := by
  rw [tokenizeCore.eq_def]
  simp [hd, hdot, hs]

theorem tcOther {c : Char} (hd : ¬c.isDigit = true) (hdot : c ≠ '.')
    (hs : ¬isSym c = true) (r : List Char) (st : ScanState) :
    tokenizeCore (c :: r) st = flushSt st ++ tokenizeCore r .start := by
  rw [tokenizeCore.eq_def]
  simp [hd, hdot, hs]

theorem tokenizeCore_valid : ∀ (cs : List Char) (st : ScanState), stInv st →
    ∀ t ∈ tokenizeCore cs st, validToken t = true := by
  intro cs
  induction cs with
  | nil =>
    intro st h t ht
    rw [tcNil] at ht
    exact flush_valid h t ht
  | cons c rest ih =>
    intro st h t ht
    by_cases hd : c.isDigit
    · cases st with
      | start =>
        rw [tcD_start hd] at ht
        exact ih (.intPart [c]) ⟨by simp, by simp [hd]⟩ t ht
      | intPart acc =>
        rw [tcD_int hd] at ht
        exact ih (.intPart (acc ++ [c]))
          ⟨by simp, by simp [List.all_append, h.2, hd]⟩ t ht
      | fracPart acc =>
        rw [tcD_frac hd] at ht
        obtain ⟨ds, fs, rfl, hne, hds, hfs⟩ := h
        exact ih (.fracPart ((ds ++ '.' :: fs) ++ [c]))
          ⟨ds, fs ++ [c], by simp, hne, hds,
            by simp [List.all_append, hfs, hd]⟩ t ht
    · by_cases hdot : c = '.'
      · subst hdot
        cases st with
        | start =>
          rw [tcDot_start] at ht
          exact ih .start trivial t ht
        | intPart acc =>
          rw [tcDot_int] at ht
          exact ih (.fracPart (acc ++ ['.']))
            ⟨acc, [], by simp, h.1, h.2, by simp⟩ t ht
        | fracPart acc =>
          rw [tcDot_frac] at ht
          rcases List.mem_cons.mp ht with rfl | h2
          · obtain ⟨ds, fs, rfl, hne, hds, hfs⟩ := h
            simp [validToken, isNumToken_frac hne hds hfs]
          · exact ih .start trivial t h2
      · by_cases hsym : isSym c
        · rw [tcSym hd hdot hsym] at ht
          rcases List.mem_append.mp ht with h1 | h1
          · exact flush_valid h t h1
          · rcases List.mem_cons.mp h1 with rfl | h2
            · exact validToken_sym hsym
            · exact ih .start trivial t h2
        · rw [tcOther hd hdot hsym] at ht
          rcases List.mem_append.mp ht with h1 | h1
          · exact flush_valid h t h1
          · exact ih .start trivial t h1

theorem tokenize_valid (s : String) : ∀ t ∈ tokenize s, validToken t = true :=
  tokenizeCore_valid s.data .start trivial

theorem validate_tokens_ok {ts : List String}
    (h : ∀ t ∈ ts, validToken t = true) : validate_tokens ts = .ok () := by
  induction ts with
  | nil => rfl
  | cons t rest ih =>
    rw [validate_tokens, if_pos (h t (by simp))]
    exact ih fun x hx => h x (by simp [hx])

theorem validate_tokenize (s : String) :
    validate_tokens (tokenize s) = .ok () :=
  validate_tokens_ok (tokenize_valid s)

/-! ## Unbalanced parentheses make the checker fail -/

theorem opens_cons_lparen (ts : List String) :
    opens ("(" :: ts) = opens ts + 1 := by
  simp [opens, List.countP_cons]

theorem opens_cons_other {t : String} (h : t ≠ "(") (ts : List String) :
    opens (t :: ts) = opens ts := by
  simp [opens, List.countP_cons, h]

theorem closes_cons_rparen (ts : List String) :
    closes (")" :: ts) = closes ts + 1 := by
  simp [closes, List.countP_cons]

theorem closes_cons_other {t : String} (h : t ≠ ")") (ts : List String) :
    closes (t :: ts) = closes ts := by
  simp [closes, List.countP_cons, h]

theorem opens_nil : opens [] = 0 := rfl

theorem closes_nil : closes [] = 0 := rfl

theorem cpNil (n : Nat) : check_parentheses [] n =
    if n = 0 then .ok () else .error .mismatchedParens := rfl

theorem cpL (rest : List String) (n : Nat) :
    check_parentheses ("(" :: rest) n = check_parentheses rest (n + 1) := by
  rw [check_parentheses.eq_def]
  simp

theorem cpR_zero (rest : List String) :
    check_parentheses (")" :: rest) 0 = .error .mismatchedParens := by
  rw [check_parentheses.eq_def]
  simp

theorem cpR_succ (rest : List String) (m : Nat) :
    check_parentheses (")" :: rest) (m + 1) = check_parentheses rest m := by
  rw [check_parentheses.eq_def]
  simp

theorem cpOther {t : String} (h1 : t ≠ "(") (h2 : t ≠ ")")
    (rest : List String) (n : Nat) :
    check_parentheses (t :: rest) n = check_parentheses rest n := by
  rw [check_parentheses.eq_def]
  simp [h1, h2]

theorem check_parentheses_unbalanced : ∀ (ts : List String) (n : Nat),
    ((∃ pre suf, ts = pre ++ ")" :: suf ∧ n + opens pre ≤ closes pre) ∨
      n + opens ts ≠ closes ts) →
    check_parentheses ts n = .error .mismatchedParens := by
  intro ts
  induction ts with
  | nil =>
    intro n h
    rcases h with ⟨pre, suf, heq, _⟩ | hne
    · exact absurd heq.symm (List.append_ne_nil_of_right_ne_nil pre (by simp))
    · rw [cpNil, if_neg (by simpa [opens_nil, closes_nil] using hne)]
  | cons t rest ih =>
    intro n h
    by_cases hL : t = "("
    · subst hL
      rw [cpL]
      apply ih (n + 1)
      rcases h with ⟨pre, suf, heq, hc⟩ | hne
      · rcases pre with _ | ⟨p, pre'⟩
        · rw [List.nil_append, List.cons.injEq] at heq
          exact absurd heq.1 (by decide)
        · rw [List.cons_append, List.cons.injEq] at heq
          obtain ⟨rfl, rfl⟩ := And.intro heq.1.symm heq.2
          left
          refine ⟨pre', suf, rfl, ?_⟩
          rw [opens_cons_lparen, closes_cons_other (by decide)] at hc
          omega
      · right
        rw [opens_cons_lparen, closes_cons_other (by decide)] at hne
        omega
    · by_cases hR : t = ")"
      · subst hR
        cases n with
        | zero => exact cpR_zero rest
        | succ m =>
          rw [cpR_succ]
          apply ih m
          rcases h with ⟨pre, suf, heq, hc⟩ | hne
          · rcases pre with _ | ⟨p, pre'⟩
            · rw [opens_nil, closes_nil] at hc
              omega
            · rw [List.cons_append, List.cons.injEq] at heq
              obtain ⟨rfl, rfl⟩ := And.intro heq.1.symm heq.2
              left
              refine ⟨pre', suf, rfl, ?_⟩
              rw [opens_cons_other (by decide), closes_cons_rparen] at hc
              omega
          · right
            rw [opens_cons_other (by decide), closes_cons_rparen] at hne
            omega
      · rw [cpOther hL hR]
        apply ih n
        rcases h with ⟨pre, suf, heq, hc⟩ | hne
        · rcases pre with _ | ⟨p, pre'⟩
          · rw [List.nil_append, List.cons.injEq] at heq
            exact absurd heq.1 hR
          · rw [List.cons_append, List.cons.injEq] at heq
            obtain ⟨rfl, rfl⟩ := And.intro heq.1.symm heq.2
            left
            refine ⟨pre', suf, rfl, ?_⟩
            rw [opens_cons_other hL, closes_cons_other hR] at hc
            omega
        · right
          rw [opens_cons_other hL, closes_cons_other hR] at hne
          omega

theorem infix_to_rpn_unbalanced {s : String} (h : Unbalanced (tokenize s)) :
    infix_to_rpn s = .error .mismatchedParens := by
  rw [infix_to_rpn, validate_tokenize s,
    check_parentheses_unbalanced (tokenize s) 0 (by simpa [Unbalanced] using h)]

theorem evaluate_unbalanced {s : String} (h : Unbalanced (tokenize s)) :
    evaluate s = .error .mismatchedParens :=
  evaluate_of_rpn_error (infix_to_rpn_unbalanced h)

/-! ## The operator case of the converter -/

theorem popCond_iff (p : Nat) (o : String) :
    popCond p o = true ↔ (o ≠ "(" ∧ p ≤ PRIORITY o) := by
  simp [popCond]

theorem popWhile_eq_takeDrop (ops : List String) (p : Nat) :
    popWhile ops p = (ops.takeWhile (popCond p), ops.dropWhile (popCond p)) := by
  induction ops with
  | nil => rfl
  | cons o rest ih =>
    by_cases h : o ≠ "(" ∧ p ≤ PRIORITY o
    · rw [popWhile, if_pos h, ih,
        List.takeWhile_cons_of_pos ((popCond_iff p o).mpr h),
        List.dropWhile_cons_of_pos ((popCond_iff p o).mpr h)]
    · rw [popWhile, if_neg h,
        List.takeWhile_cons_of_neg (fun hc => h ((popCond_iff p o).mp hc)),
        List.dropWhile_cons_of_neg (fun hc => h ((popCond_iff p o).mp hc))]

theorem convertLoop_op {t : String} (h : isOp t = true)
    (rest out ops : List String) :
    convertLoop (t :: rest) out ops =
      convertLoop rest (out ++ ops.takeWhile (popCond (PRIORITY t)))
        (t :: ops.dropWhile (popCond (PRIORITY t))) := by
  rw [convertLoop, if_neg (by simp [isOp_not_num h]), if_pos h,
    popWhile_eq_takeDrop]

/-! ## Token shape facts for the reference grammar -/

theorem ne_nil_of_isEmpty_false {α : Type} {l : List α} (h : l.isEmpty = false) :
    l ≠ [] := by
  cases l with
  | nil => simp [List.isEmpty] at h
  | cons c r => simp

theorem wf_num_elim {ds fs : List Char} {dotted : Bool} {p : Nat}
    (h : (Expr.num ds dotted fs).wf p = true) :
    ds ≠ [] ∧ ds.all Char.isDigit = true ∧ fs.all Char.isDigit = true := by
  simp only [Expr.wf, Bool.and_eq_true, Bool.not_eq_true'] at h
  exact ⟨ne_nil_of_isEmpty_false h.1.1, h.1.2, h.2⟩

theorem wf_bin_elim {o : BOp} {a b : Expr} {p : Nat}
    (h : (Expr.bin o a b).wf p = true) :
    p ≤ o.prio ∧ a.wf o.prio = true ∧ b.wf (o.prio + 1) = true := by
  simp only [Expr.wf, Bool.and_eq_true, decide_eq_true_eq] at h
  exact ⟨h.1.1, h.1.2, h.2⟩

theorem wf_paren_elim {f : Expr} {p : Nat}
    (h : (Expr.paren f).wf p = true) : f.wf 1 = true := h

theorem isNumToken_numToken {ds fs : List Char} (dotted : Bool) (hne : ds ≠ [])
    (hd : ds.all Char.isDigit = true) (hf : fs.all Char.isDigit = true) :
    isNumToken (numToken ds dotted fs) = true := by
  cases dotted with
  | false =>
    rw [show numToken ds false fs = String.mk ds by simp [numToken]]
    exact isNumToken_digits hne hd
  | true =>
    rw [show numToken ds true fs = String.mk (ds ++ '.' :: fs) by simp [numToken]]
    exact isNumToken_frac hne hd hf

theorem isNumToken_ne_lparen {t : String} (h : isNumToken t = true) : t ≠ "(" := by
  intro he
  rw [he] at h
  exact absurd h (by decide)

theorem isNumToken_ne_rparen {t : String} (h : isNumToken t = true) : t ≠ ")" := by
  intro he
  rw [he] at h
  exact absurd h (by decide)

theorem isOp_tok (o : BOp) : isOp o.tok = true := by
  cases o <;> decide

theorem isNumToken_tok (o : BOp) : isNumToken o.tok = false := by
  cases o <;> decide

theorem PRIORITY_tok (o : BOp) : PRIORITY o.tok = o.prio := by
  cases o <;> decide

theorem applyOp_app (o : BOp) (x y : ℚ) : applyOp o.tok x y = o.app x y := by
  cases o <;> rfl

theorem toks_valid (e : Expr) : ∀ p, e.wf p = true →
    ∀ t ∈ e.toks, validToken t = true := by
  induction e with
  | num ds dotted fs =>
    intro p hwf t ht
    obtain ⟨hne, hd, hf⟩ := wf_num_elim hwf
    simp only [Expr.toks, List.mem_singleton] at ht
    subst ht
    simp [validToken, isNumToken_numToken dotted hne hd hf]
  | bin o a b iha ihb =>
    intro p hwf t ht
    obtain ⟨_, hwa, hwb⟩ := wf_bin_elim hwf
    rw [Expr.toks] at ht
    rcases List.mem_append.mp ht with h1 | h1
    · exact iha _ hwa t h1
    · rcases List.mem_cons.mp h1 with rfl | h2
      · simp [validToken, isOp_tok o]
      · exact ihb _ hwb t h2
  | paren f ihf =>
    intro p hwf t ht
    rw [Expr.toks] at ht
    rcases List.mem_cons.mp ht with rfl | h1
    · decide
    · rcases List.mem_append.mp h1 with h2 | h2
      · exact ihf 1 (wf_paren_elim hwf) t h2
      · rcases List.mem_singleton.mp h2 with rfl
        decide

/-! ## The parenthesis check passes over well-formed token lists -/

theorem cp_toks (e : Expr) : ∀ p, e.wf p = true → ∀ (rest : List String) (n : Nat),
    check_parentheses (e.toks ++ rest) n = check_parentheses rest n := by
  induction e with
  | num ds dotted fs =>
    intro p hwf rest n
    obtain ⟨hne, hd, hf⟩ := wf_num_elim hwf
    have hnum := isNumToken_numToken dotted hne hd hf
    rw [Expr.toks, List.cons_append, List.nil_append,
      cpOther (isNumToken_ne_lparen hnum) (isNumToken_ne_rparen hnum)]
  | bin o a b iha ihb =>
    intro p hwf rest n
    obtain ⟨_, hwa, hwb⟩ := wf_bin_elim hwf
    rw [Expr.toks, List.append_assoc, iha _ hwa, List.cons_append,
      cpOther (isOp_ne_lparen (isOp_tok o)) (isOp_ne_rparen (isOp_tok o)),
      ihb _ hwb]
  | paren f ihf =>
    intro p hwf rest n
    rw [Expr.toks, List.cons_append, cpL, List.append_assoc,
      List.singleton_append, ihf 1 (wf_paren_elim hwf), cpR_succ]

/-! ## The tokenizer recovers the token list of a rendered expression -/

theorem isSym_not_digit {c : Char} (h : isSym c = true) : ¬c.isDigit = true := by
  rcases isSym_cases h with rfl | rfl | rfl | rfl | rfl | rfl <;> decide

theorem isSym_ne_dot {c : Char} (h : isSym c = true) : c ≠ '.' := by
  rcases isSym_cases h with rfl | rfl | rfl | rfl | rfl | rfl <;> decide

theorem spaceJoin_append (xs ys : List String) :
    spaceJoin (xs ++ ys) = spaceJoin xs ++ spaceJoin ys := by
  induction xs with
  | nil => rfl
  | cons t xs' ih => simp [spaceJoin, ih]

theorem tc_run_int {ds : List Char} (h : ds.all Char.isDigit = true) :
    ∀ (r acc : List Char),
      tokenizeCore (ds ++ r) (.intPart acc) = tokenizeCore r (.intPart (acc ++ ds)) := by
  induction ds with
  | nil => intro r acc; simp
  | cons d ds' ih =>
    rw [List.all_cons, Bool.and_eq_true] at h
    intro r acc
    rw [List.cons_append, tcD_int h.1, ih h.2]
    simp [List.append_assoc]

theorem tc_run_frac {fs : List Char} (h : fs.all Char.isDigit = true) :
    ∀ (r acc : List Char),
      tokenizeCore (fs ++ r) (.fracPart acc) = tokenizeCore r (.fracPart (acc ++ fs)) := by
  induction fs with
  | nil => intro r acc; simp
  | cons d fs' ih =>
    rw [List.all_cons, Bool.and_eq_true] at h
    intro r acc
    rw [List.cons_append, tcD_frac h.1, ih h.2]
    simp [List.append_assoc]

theorem tc_step_num {ds fs : List Char} {dotted : Bool} (hne : ds ≠ [])
    (hd : ds.all Char.isDigit = true) (hf : fs.all Char.isDigit = true)
    (r : List Char) :
    tokenizeCore ((numToken ds dotted fs).data ++ ' ' :: r) .start =
      numToken ds dotted fs :: tokenizeCore r .start := by
  obtain ⟨d, ds', rfl⟩ : ∃ d ds', ds = d :: ds' := by
    cases ds with
    | nil => exact absurd rfl hne
    | cons d ds' => exact ⟨d, ds', rfl⟩
  rw [List.all_cons, Bool.and_eq_true] at hd
  cases dotted with
  | false =>
    rw [show (numToken (d :: ds') false fs).data = d :: ds' by simp [numToken],
      List.cons_append, tcD_start hd.1, tc_run_int hd.2,
      tcOther (by decide) (by decide) (by decide)]
    simp [flushSt, numToken]
  | true =>
    rw [show (numToken (d :: ds') true fs).data = d :: (ds' ++ '.' :: fs) by
        simp [numToken],
      List.cons_append, tcD_start hd.1, List.append_assoc, List.cons_append,
      tc_run_int hd.2, tcDot_int, tc_run_frac hf,
      tcOther (by decide) (by decide) (by decide)]
    simp [flushSt, numToken, List.append_assoc]

theorem tc_step_sym {c : Char} (hs : isSym c = true) (r : List Char) :
    tokenizeCore (c :: ' ' :: r) .start = String.mk [c] :: tokenizeCore r .start := by
  rw [tcSym (isSym_not_digit hs) (isSym_ne_dot hs) hs,
    tcOther (by decide) (by decide) (by decide)]
  simp [flushSt]

theorem tc_step_op (o : BOp) (r : List Char) :
    tokenizeCore (o.tok.data ++ ' ' :: r) .start = o.tok :: tokenizeCore r .start := by
  cases o <;> exact tc_step_sym (by decide) r

theorem tokenizeCore_toks (e : Expr) : ∀ p, e.wf p = true → ∀ (r : List Char),
    tokenizeCore (spaceJoin e.toks ++ r) .start = e.toks ++ tokenizeCore r .start := by
  induction e with
  | num ds dotted fs =>
    intro p hwf r
    obtain ⟨hne, hd, hf⟩ := wf_num_elim hwf
    rw [Expr.toks, spaceJoin, spaceJoin, List.append_assoc, List.cons_append,
      List.nil_append, tc_step_num hne hd hf, List.cons_append, List.nil_append]
  | bin o a b iha ihb =>
    intro p hwf r
    obtain ⟨_, hwa, hwb⟩ := wf_bin_elim hwf
    rw [Expr.toks, spaceJoin_append, List.append_assoc, iha _ hwa, spaceJoin,
      List.append_assoc, List.cons_append, tc_step_op o, ihb _ hwb]
    simp [List.append_assoc]
  | paren f ihf =>
    intro p hwf r
    rw [Expr.toks, spaceJoin, spaceJoin_append,
      show ("(" : String).data = ['('] from rfl]
    simp only [List.cons_append, List.nil_append, List.append_assoc]
    rw [tc_step_sym (by decide : isSym '(' = true),
      show spaceJoin [")"] ++ r = ')' :: ' ' :: r from rfl,
      ihf 1 (wf_paren_elim hwf), tc_step_sym (by decide : isSym ')' = true)]

theorem tokenize_render (e : Expr) (h : e.wf 1 = true) :
    tokenize (render e) = e.toks := by
  rw [tokenize, render, show (String.mk (spaceJoin e.toks)).data = spaceJoin e.toks
      from rfl]
  have h2 := tokenizeCore_toks e 1 h []
  rw [List.append_nil] at h2
  rw [h2, tcNil]
  simp [flushSt]

/-! ## Correctness of the shunting-yard conversion loop -/

theorem popWhile_cons (o : String) (rest : List String) (p : Nat) :
    popWhile (o :: rest) p = if o ≠ "(" ∧ p ≤ PRIORITY o then
      (o :: (popWhile rest p).1, (popWhile rest p).2) else ([], o :: rest) := by
  rw [popWhile]

theorem popWhile_pend {pend ops : List String} {q : Nat}
    (h1 : ∀ o ∈ pend, isOp o = true ∧ q ≤ PRIORITY o) (h2 : topOK ops q) :
    popWhile (pend ++ ops) q = (pend, ops) := by
  induction pend with
  | nil =>
    rw [List.nil_append]
    cases ops with
    | nil => rfl
    | cons o rest =>
      rcases h2 with hp | ⟨_, hp⟩
      · rw [popWhile_cons, if_neg (fun hc => hc.1 hp)]
      · rw [popWhile_cons, if_neg (fun hc => absurd hc.2 (by omega))]
  | cons x pend' ih =>
    have hx := h1 x (by simp)
    rw [List.cons_append, popWhile_cons,
      if_pos ⟨isOp_ne_lparen hx.1, hx.2⟩,
      ih (fun o ho => h1 o (by simp [ho]))]

theorem popUntilParen_cons (o : String) (rest : List String) :
    popUntilParen (o :: rest) = if o = "(" then ([], o :: rest)
      else (o :: (popUntilParen rest).1, (popUntilParen rest).2) := by
  rw [popUntilParen]

theorem popUntilParen_pend {pend : List String} (h : ∀ o ∈ pend, o ≠ "(")
    (ops : List String) :
    popUntilParen (pend ++ "(" :: ops) = (pend, "(" :: ops) := by
  induction pend with
  | nil => rw [List.nil_append, popUntilParen_cons, if_pos rfl]
  | cons x pend' ih =>
    rw [List.cons_append, popUntilParen_cons, if_neg (h x (by simp)),
      ih (fun o ho => h o (by simp [ho]))]

theorem finishOps_ops {ops : List String} (h : ∀ o ∈ ops, isOp o = true) :
    ∀ out, finishOps out ops = .ok (out ++ ops) := by
  induction ops with
  | nil => intro out; simp [finishOps]
  | cons o rest ih =>
    intro out
    have ho := h o (by simp)
    rw [finishOps, if_neg (by simp [isOp_ne_lparen ho, isOp_ne_rparen ho]),
      ih (fun x hx => h x (by simp [hx]))]
    simp

theorem topOK_mono {ops : List String} {p q : Nat} (h : topOK ops p)
    (hpq : p ≤ q) : topOK ops q := by
  cases ops with
  | nil => trivial
  | cons o rest =>
    rcases h with h1 | ⟨h1, h2⟩
    · exact Or.inl h1
    · exact Or.inr ⟨h1, by omega⟩

theorem convertLoop_nil (out ops : List String) :
    convertLoop [] out ops = finishOps out ops := rfl

theorem convertLoop_num {t : String} (h : isNumToken t = true)
    (rest out ops : List String) :
    convertLoop (t :: rest) out ops = convertLoop rest (out ++ [t]) ops := by
  rw [convertLoop, if_pos h]

theorem convertLoop_op_raw {t : String} (h : isOp t = true)
    (rest out ops : List String) :
    convertLoop (t :: rest) out ops =
      convertLoop rest (out ++ (popWhile ops (PRIORITY t)).1)
        (t :: (popWhile ops (PRIORITY t)).2) := by
  rw [convertLoop, if_neg (by simp [isOp_not_num h]), if_pos h]

theorem convertLoop_lparen (rest out ops : List String) :
    convertLoop ("(" :: rest) out ops = convertLoop rest out ("(" :: ops) := by
  rw [convertLoop, if_neg (by decide), if_neg (by decide), if_pos rfl]

theorem convertLoop_rparen (rest out ops : List String) :
    convertLoop (")" :: rest) out ops =
      match popUntilParen ops with
      | (_, []) => .error .mismatchedParens
      | (popped, _ :: remOps) => convertLoop rest (out ++ popped) remOps := by
  rw [convertLoop, if_neg (by decide), if_neg (by decide), if_neg (by decide),
    if_pos rfl]

theorem conv_step (e : Expr) : ∀ (p : Nat), e.wf p = true →
    ∀ (rest out ops : List String), topOK ops p →
    ∃ out' pend, out' ++ pend = out ++ e.rpn ∧
      (∀ o ∈ pend, isOp o = true ∧ p ≤ PRIORITY o) ∧
      convertLoop (e.toks ++ rest) out ops = convertLoop rest out' (pend ++ ops) := by
  induction e with
  | num ds dotted fs =>
    intro p hwf rest out ops _
    obtain ⟨hne, hd, hf⟩ := wf_num_elim hwf
    refine ⟨out ++ [numToken ds dotted fs], [], by simp [Expr.rpn], by simp, ?_⟩
    rw [Expr.toks, List.cons_append, List.nil_append,
      convertLoop_num (isNumToken_numToken dotted hne hd hf), List.nil_append]
  | bin o a b iha ihb =>
    intro p hwf rest out ops hops
    obtain ⟨hp, hwa, hwb⟩ := wf_bin_elim hwf
    obtain ⟨outA, pendA, houtA, hpendA, heqA⟩ :=
      iha o.prio hwa (o.tok :: (b.toks ++ rest)) out ops (topOK_mono hops hp)
    obtain ⟨outB, pendB, houtB, hpendB, heqB⟩ :=
      ihb (o.prio + 1) hwb rest (outA ++ pendA) (o.tok :: ops)
        (Or.inr ⟨isOp_tok o, by rw [PRIORITY_tok]; omega⟩)
    refine ⟨outB, pendB ++ [o.tok], ?_, ?_, ?_⟩
    · rw [Expr.rpn, ← List.append_assoc, houtB, houtA]
      simp [List.append_assoc]
    · intro x hx
      rcases List.mem_append.mp hx with h1 | h1
      · have hx2 := hpendB x h1
        exact ⟨hx2.1, by omega⟩
      · rcases List.mem_singleton.mp h1 with rfl
        exact ⟨isOp_tok o, by rw [PRIORITY_tok]; omega⟩
    · rw [Expr.toks, List.append_assoc, List.cons_append, heqA,
        convertLoop_op_raw (isOp_tok o), PRIORITY_tok,
        popWhile_pend hpendA (topOK_mono hops hp), heqB,
        List.append_assoc, List.singleton_append]
  | paren f ihf =>
    intro p hwf rest out ops hops
    obtain ⟨outF, pendF, houtF, hpendF, heqF⟩ :=
      ihf 1 (wf_paren_elim hwf) (")" :: rest) out ("(" :: ops) (Or.inl rfl)
    refine ⟨outF ++ pendF, [], ?_, by simp, ?_⟩
    · rw [List.append_nil, houtF, Expr.rpn]
    · rw [Expr.toks, List.cons_append, convertLoop_lparen, List.append_assoc,
        List.singleton_append, heqF, convertLoop_rparen,
        popUntilParen_pend (fun o ho => isOp_ne_lparen (hpendF o ho).1) ops,
        List.nil_append]

theorem convert_correct (e : Expr) (h : e.wf 1 = true) :
    convertLoop e.toks [] [] = .ok e.rpn := by
  obtain ⟨out', pend, hout, hpend, heq⟩ := conv_step e 1 h [] [] [] trivial
  calc convertLoop e.toks [] []
      = convertLoop (e.toks ++ []) [] [] := by rw [List.append_nil]
    _ = convertLoop [] out' (pend ++ []) := heq
    _ = finishOps out' pend := by rw [List.append_nil, convertLoop_nil]
    _ = .ok (out' ++ pend) := finishOps_ops (fun o ho => (hpend o ho).1) out'
    _ = .ok e.rpn := by rw [hout, List.nil_append]

/-! ## Correctness of the postfix evaluation loop -/

theorem eval_rpn_step (e : Expr) : ∀ p, e.wf p = true → ∀ (v : ℚ),
    e.val = some v → ∀ (rest : List String) (st : List ℚ),
    evalLoop (e.rpn ++ rest) st = evalLoop rest (v :: st) := by
  induction e with
  | num ds dotted fs =>
    intro p hwf v hv rest st
    obtain ⟨hne, hd, hf⟩ := wf_num_elim hwf
    simp only [Expr.val, Option.some.injEq] at hv
    rw [Expr.rpn, List.cons_append, List.nil_append,
      evalLoop_num (isNumToken_numToken dotted hne hd hf), hv]
  | bin o a b iha ihb =>
    intro p hwf v hv rest st
    obtain ⟨hp, hwa, hwb⟩ := wf_bin_elim hwf
    rcases hva : a.val with _ | x
    · simp [Expr.val, hva] at hv
    · rcases hvb : b.val with _ | y
      · simp [Expr.val, hva, hvb] at hv
      · simp only [Expr.val, hva, hvb] at hv
        by_cases hz : o = .div ∧ y = 0
        · rw [if_pos hz] at hv
          exact absurd hv (by simp)
        · rw [if_neg hz] at hv
          simp only [Option.some.injEq] at hv
          have hnz : ¬(o.tok = "/" ∧ y = 0) := by
            rintro ⟨ht, hy⟩
            apply hz
            cases o with
            | div => exact ⟨rfl, hy⟩
            | add => exact absurd ht (by decide)
            | sub => exact absurd ht (by decide)
            | mul => exact absurd ht (by decide)
          rw [Expr.rpn, List.append_assoc, iha _ hwa x hva, List.append_assoc,
            List.singleton_append, ihb _ hwb y hvb,
            evalLoop_op (isOp_tok o) rest x y st hnz, applyOp_app o, hv]
  | paren f ihf =>
    intro p hwf v hv rest st
    rw [Expr.rpn]
    exact ihf 1 (wf_paren_elim hwf) v hv rest st

/-! ## The full pipeline on a rendered well-formed expression -/

theorem infix_to_rpn_render (e : Expr) (h : e.wf 1 = true) :
    infix_to_rpn (render e) = .ok e.rpn := by
  have hcp : check_parentheses e.toks 0 = .ok () := by
    have h2 := cp_toks e 1 h [] 0
    rw [List.append_nil] at h2
    rw [h2, cpNil, if_pos rfl]
  simp only [infix_to_rpn, tokenize_render e h,
    validate_tokens_ok (toks_valid e 1 h), hcp, convert_correct e h]

theorem evaluate_render (e : Expr) (v : ℚ) (h : e.wf 1 = true)
    (hv : e.val = some v) : evaluate (render e) = .ok v := by
  rw [evaluate_of_rpn (infix_to_rpn_render e h), evaluate_rpn]
  have h2 := eval_rpn_step e 1 h v hv [] []
  rw [List.append_nil] at h2
  rw [h2, evalLoop_final]

/-! ## The claims -/

/-- C1: the spec requires every input containing a character sequence that
is neither a numeral, an operator, a parenthesis nor whitespace to fail
with InvalidToken before conversion or evaluation — in particular
`evaluate("3 + 4a")` should fail.  The code does not do this: the
tokenizing regex silently drops the letter `a`, the pipeline converts
`["3","+","4"]` and `evaluate "3 + 4a"` returns `7.0`.  This theorem
records the code's actual behaviour at the spec's own example input,
contradicting the repository's test `test_invalid_tokens` as well. -/
theorem claim_C1 : evaluate "3 + 4a" = .ok 7 ∧
    infix_to_rpn "3 + 4a" = .ok ["3", "4", "+"] :=
  ⟨eval_dropped_letter, by decide⟩

/-- C2: for every well-formed infix expression — a reading of a balanced,
operand-sufficient token string under standard left-associative precedence
with `*`,`/` binding tighter than `+`,`-` (captured by `Expr.wf · 1`) —
whose reference value is defined, `evaluate` of its rendering returns that
value; concretely `evaluate "3 + 4 * 2" = 11` with postfix
`["3","4","2","*","+"]`, and `evaluate "3 + 4 * 2 / (1 - 5)" = 1`. -/
theorem claim_C2 :
    (∀ (e : Expr) (v : ℚ), e.wf 1 = true → e.val = some v →
      evaluate (render e) = .ok v) ∧
    evaluate "3 + 4 * 2" = .ok 11 ∧
    infix_to_rpn "3 + 4 * 2" = .ok ["3", "4", "2", "*", "+"] ∧
    evaluate "3 + 4 * 2 / (1 - 5)" = .ok 1 :=
  ⟨fun e v h hv => evaluate_render e v h hv, eval_3p4t2, by decide, eval_big⟩

/-- Witness for C2 at the expression `3 + 4 * 2`. -/
theorem claim_C2_witness :
    evaluate (render (Expr.bin .add (.num ['3'] false [])
      (.bin .mul (.num ['4'] false []) (.num ['2'] false [])))) = .ok 11 :=
  claim_C2.1 _ 11 (by decide) (by
    simp only [Expr.val, show numToken ['3'] false [] = "3" from rfl,
      show numToken ['4'] false [] = "4" from rfl,
      show numToken ['2'] false [] = "2" from rfl,
      parseNum_3, parseNum_4, parseNum_2, BOp.app]
    norm_num)

/-- C3: applying `/` with right operand exactly zero fails with
`RPNSyntaxError("Division by zero")` (never yielding a value, hence never
an infinity or NaN), both for the evaluator step on any stack and for the
pipeline on `"3 / 0"`. -/
theorem claim_C3 :
    (∀ (rest : List String) (a : ℚ) (st : List ℚ),
      evalLoop ("/" :: rest) (0 :: a :: st) =
        .error (.synErr "Division by zero")) ∧
    evaluate "3 / 0" = .error (.synErr "Division by zero") :=
  ⟨evalLoop_div_zero, eval_div0⟩

/-- C4: any token sequence with an unmatched parenthesis — a `")"` seen
with every earlier `"("` already matched, or differing totals so an
unmatched `"("` remains at end of scan — makes the pipeline fail with
MismatchedParentheses; in particular both `"(3 + 4"` and `"3 + 4)"`. -/
theorem claim_C4 :
    (∀ s : String, Unbalanced (tokenize s) →
      evaluate s = .error .mismatchedParens) ∧
    evaluate "(3 + 4" = .error .mismatchedParens ∧
    evaluate "3 + 4)" = .error .mismatchedParens :=
  ⟨fun _ h => evaluate_unbalanced h, eval_unmatched_open, eval_unmatched_close⟩

/-- Witness for C4 at the input `"(3 + 4"`. -/
theorem claim_C4_witness : evaluate "(3 + 4" = .error .mismatchedParens :=
  claim_C4.1 "(3 + 4" (Or.inr (by decide))

/-- C5: after all postfix tokens are consumed, the evaluator returns the
single stack value if the stack holds exactly one, and fails with
`RPNSyntaxError("Malformed expression")` if zero or more than one value
remains; e.g. `evaluate_rpn ["3","3"]` fails that way. -/
theorem claim_C5 :
    (∀ st : List ℚ, evalLoop [] st = match st with
      | [v] => Except.ok v
      | _ => Except.error (.synErr "Malformed expression")) ∧
    evaluate_rpn ["3", "3"] = .error (.synErr "Malformed expression") :=
  ⟨evalLoop_final, evalrpn_33⟩

/-- C6: on an operator token the converter pops exactly the maximal prefix
of the operator stack whose entries are not `"("` and have priority at
least the incoming operator's (equal priority pops: left associativity),
appends it to the output, and pushes the incoming operator; priorities are
`+`,`-` = 1 and `*`,`/` = 2. -/
theorem claim_C6 :
    (PRIORITY "+" = 1 ∧ PRIORITY "-" = 1 ∧
      PRIORITY "*" = 2 ∧ PRIORITY "/" = 2) ∧
    (∀ (t : String), isOp t = true → ∀ (rest out ops : List String),
      convertLoop (t :: rest) out ops =
        convertLoop rest (out ++ ops.takeWhile (popCond (PRIORITY t)))
          (t :: ops.dropWhile (popCond (PRIORITY t)))) ∧
    (∀ (p : Nat) (o : String), popCond p o = true ↔
      (o ≠ "(" ∧ p ≤ PRIORITY o)) :=
  ⟨by decide, fun _ h rest out ops => convertLoop_op h rest out ops, popCond_iff⟩

/-- Witness for C6: incoming `"+"` over stack `["*", "(", "-"]`. -/
theorem claim_C6_witness :
    convertLoop ["+"] ["3"] ["*", "(", "-"] =
      convertLoop [] (["3"] ++
          (["*", "(", "-"] : List String).takeWhile (popCond (PRIORITY "+")))
        ("+" :: (["*", "(", "-"] : List String).dropWhile (popCond (PRIORITY "+"))) :=
  claim_C6.2.1 "+" (by decide) [] ["3"] ["*", "(", "-"]

/-- C7: an operator applied with at least two operands pops the right
operand `b` first, then the left operand `a`, and pushes `a op b`
(`a+b`, `a-b`, `a*b`, `a/b`); in particular
`evaluate_rpn ["3","4","-"] = -1`, not `1`. -/
theorem claim_C7 :
    (∀ (t : String), isOp t = true →
      ∀ (rest : List String) (a b : ℚ) (st : List ℚ), ¬(t = "/" ∧ b = 0) →
      evalLoop (t :: rest) (b :: a :: st) =
        evalLoop rest (applyOp t a b :: st)) ∧
    (∀ a b : ℚ, applyOp "+" a b = a + b ∧ applyOp "-" a b = a - b ∧
      applyOp "*" a b = a * b ∧ applyOp "/" a b = a / b) ∧
    evaluate_rpn ["3", "4", "-"] = .ok (-1) :=
  ⟨fun _ h rest a b st hnz => evalLoop_op h rest a b st hnz,
   fun a b => ⟨applyOp_add a b, applyOp_sub a b, applyOp_mul a b, applyOp_div a b⟩,
   evalrpn_34minus⟩

/-- Witness for C7: `"-"` on the stack `[4, 3]` (top first). -/
theorem claim_C7_witness :
    evalLoop ["-"] ((4 : ℚ) :: (3 : ℚ) :: []) =
      evalLoop [] (applyOp "-" 3 4 :: []) :=
  claim_C7.1 "-" (by decide) [] 3 4 [] (fun h => absurd h.1 (by decide))

/-- C8: an operator token reached while the operand stack holds fewer than
two values fails with `RPNSyntaxError("Not enough operands for operator")`
and pushes nothing; in particular `evaluate "+ 3"` fails that way. -/
theorem claim_C8 :
    (∀ (t : String), isOp t = true →
      ∀ (rest : List String) (st : List ℚ), st.length < 2 →
      evalLoop (t :: rest) st =
        .error (.synErr "Not enough operands for operator")) ∧
    evaluate "+ 3" = .error (.synErr "Not enough operands for operator") :=
  ⟨fun _ h rest _ hst => evalLoop_insufficient h rest hst, eval_plus3⟩

/-- Witness for C8: `"+"` on the empty stack. -/
theorem claim_C8_witness :
    evalLoop ["+"] ([] : List ℚ) =
      .error (.synErr "Not enough operands for operator") :=
  claim_C8.1 "+" (by decide) [] [] (by decide)

/-- C9: whenever the conversion accepts an input string, evaluating the
resulting postfix sequence with the standalone evaluator gives the same
outcome as the composed `evaluate` on the string (`evaluate` is exactly
that composition, so the outcomes agree, errors included). -/
theorem claim_C9 : ∀ (s : String) (ts : List String),
    infix_to_rpn s = .ok ts → evaluate_rpn ts = evaluate s :=
  fun _ _ h => (evaluate_of_rpn h).symm

/-- Witness for C9 at `"3 + 4"`. -/
theorem claim_C9_witness : evaluate_rpn ["3", "4", "+"] = evaluate "3 + 4" :=
  claim_C9 "3 + 4" ["3", "4", "+"] (by decide)

/-- C10: every token the tokenizer emits already satisfies the validation
predicate, so validation never fails on tokenizer output — the InvalidToken
branch is unreachable through `infix_to_rpn` — and unmatched characters
such as letters are silently dropped:
`infix_to_rpn "3 + 4a" = ["3","4","+"]`. -/
theorem claim_C10 :
    (∀ s : String, (tokenize s).all validToken = true) ∧
    (∀ s : String, validate_tokens (tokenize s) = .ok ()) ∧
    infix_to_rpn "3 + 4a" = .ok ["3", "4", "+"] :=
  ⟨fun s => List.all_eq_true.mpr (tokenize_valid s), validate_tokenize, by decide⟩
